import Mathlib

/-!
Verification of the N-Queens solver in `src/main.py` (class `NReinas`).

Representation (from the source): a placement (`solucion`) is a vector of
size `n` where the index is the column and the value the row; the sentinel
`-1` marks an unassigned column.  The exhaustive solver (`resolver` /
`_backtrack`) enumerates all solutions; the stochastic solver
(`resolver_probabilista`) is a min-conflicts local search threaded through
Python's process-wide random generator, modelled here as explicit state.
-/

set_option maxRecDepth 10000

/-- The solver state of class `NReinas`: the board size `n` and the stored
list of solutions `soluciones`. -/
structure NReinas where
  n : Nat
  soluciones : List (List Int)
deriving Repr, DecidableEq

/-- `limpiar`: clears the stored solutions (`self.soluciones.clear()`). -/
def NReinas.limpiar (s : NReinas) : NReinas :=
  { s with soluciones := [] }

/-- `es_valida(solucion, fila, columna)`: placing a queen at row `fila`,
column `columna` is valid with respect to the previously assigned columns
`0..columna-1`.  Mirrors the Python loop
`for col in range(columna): if solucion[col] == fila or abs(solucion[col] - fila) == abs(col - columna): return False`. -/
def NReinas.es_valida (solucion : List Int) (fila : Int) (columna : Nat) : Bool :=
  (List.range columna).all fun col =>
    !(solucion.getD col 0 == fila ||
      (solucion.getD col 0 - fila).natAbs == ((col : Int) - (columna : Int)).natAbs)

/-- `_backtrack(columna, solucion)`, written with the structural gas
`gas = n - columna` so that it computes by kernel reduction.  At
`columna = n` the current placement is recorded; otherwise each row
`0..n-1` is tried in ascending order, assigned when `es_valida` accepts it,
and the recursion explores column `columna+1` (the Python undo
`solucion[columna] = -1` is implicit in the functional update `List.set`
being applied to the unmodified `solucion`).  The gas-exhausted branch with
`columna ≠ n` is unreachable from `resolver`, which calls with
`gas = n - columna` and `columna ≤ n`. -/
def NReinas.backtrackGas (n : Nat) : Nat → Nat → List Int → List (List Int)
  | 0, columna, solucion => if columna = n then [solucion] else []
  | gas + 1, columna, solucion =>
    if columna = n then [solucion]
    else
      (List.range n).flatMap fun fila =>
        if NReinas.es_valida solucion (fila : Int) columna then
          NReinas.backtrackGas n gas (columna + 1) (solucion.set columna (fila : Int))
        else []

/-- `_backtrack(columna, solucion)`: the recursion of the source, entered
with the gas value `n - columna` that bounds its depth. -/
def NReinas.backtrack (n : Nat) (columna : Nat) (solucion : List Int) :
    List (List Int) :=
  NReinas.backtrackGas n (n - columna) columna solucion

/-- `resolver()`: clears the stored solutions and runs `_backtrack` from
column 0 on the all-sentinel placement `[-1] * n`, appending every complete
solution found. -/
def NReinas.resolver (s : NReinas) : NReinas :=
  let s1 := s.limpiar
  { s1 with
    soluciones := s1.soluciones ++
      NReinas.backtrack s1.n 0 (List.replicate s1.n (-1 : Int)) }

/-- `cantidad_soluciones()`: number of stored solutions. -/
def NReinas.cantidad_soluciones (s : NReinas) : Nat :=
  s.soluciones.length

/-- A fresh solver for board size `n` with an empty solution set, as
produced by a successful construction. -/
def NReinas.nuevo (n : Nat) : NReinas :=
  { n := n, soluciones := [] }

/-- Modelled from the spec: Python's process-wide, seedable random
generator state (the `random` module used by `__init__` and
`resolver_probabilista`).  The generator algorithm itself is library code,
not part of this repository; it is stood in for by a linear congruential
step.  All theorems about the stochastic solver are quantified over the
generator state, so none depends on this concrete step function. -/
abbrev Rng := Nat

/-- One step of the modelled generator (a standard LCG modulo 2^32). -/
def rngNext (g : Rng) : Rng :=
  (1664525 * g + 1013904223) % 4294967296

/-- Modelled from the spec: `random.seed(seed)` deterministically resets
the shared generator as a function of the seed alone. -/
def rngSeed (seed : Nat) : Rng :=
  seed % 4294967296

/-- Modelled from the spec: `random.randrange(n)` draws a value in
`0..n-1` and advances the generator. -/
def randrange (n : Nat) (g : Rng) : Nat × Rng :=
  let g1 := rngNext g
  (g1 % n, g1)

/-- Modelled from the spec: `random.choice(l)` on a nonempty list of
columns draws an index below `l.length` and returns that element. -/
def rngChoiceN (l : List Nat) (g : Rng) : Nat × Rng :=
  let p := randrange l.length g
  (l.getD p.1 0, p.2)

/-- Modelled from the spec: `random.choice(l)` on a nonempty list of rows
(as placement entries) draws an index below `l.length` and returns that
element. -/
def rngChoiceZ (l : List Int) (g : Rng) : Int × Rng :=
  let p := randrange l.length g
  (l.getD p.1 0, p.2)

/-- `[random.randrange(self.n) for _ in range(self.n)]`: the random initial
placement of a restart, generated left to right (`k` entries remain). -/
def randFilas (n : Nat) : Nat → Rng → List Int × Rng
  | 0, g => ([], g)
  | k + 1, g =>
    let p := randrange n g
    let resto := randFilas n k p.2
    (((p.1 : Int)) :: resto.1, resto.2)

/-- `conflictos_en(solucion, columna, fila)`: counts conflicts of placing
`(columna -> fila)` against every other column's entry, skipping the
queried column and sentinel entries `-1`.  Mirrors the Python counter loop
with its two `continue`s. -/
def NReinas.conflictos_en (n : Nat) (solucion : List Int) (columna : Nat)
    (fila : Int) : Nat :=
  (List.range n).foldl
    (fun conflictos c =>
      if c = columna then conflictos
      else
        let f := solucion.getD c 0
        if f = -1 then conflictos
        else if f = fila ∨ (f - fila).natAbs = ((c : Int) - (columna : Int)).natAbs
          then conflictos + 1
        else conflictos)
    0

/-- The list comprehension
`[c for c in range(self.n) if self.conflictos_en(solucion, c, solucion[c]) > 0]`. -/
def NReinas.colsConflicto (n : Nat) (solucion : List Int) : List Nat :=
  (List.range n).filter fun c =>
    0 < NReinas.conflictos_en n solucion c (solucion.getD c 0)

/-- The `mejor_filas` loop of `resolver_probabilista`: scans rows `0..n-1`,
keeping the list of rows achieving the minimum conflict count seen so far
(`mejor_conf` starts as `None`). -/
def NReinas.mejorFilas (n : Nat) (solucion : List Int) (col : Nat) : List Int :=
  ((List.range n).foldl
    (fun (acc : List Int × Option Nat) (fila : Nat) =>
      let conf := NReinas.conflictos_en n solucion col (fila : Int)
      match acc.2 with
      | none => ([(fila : Int)], some conf)
      | some mejor =>
        if conf < mejor then ([(fila : Int)], some conf)
        else if conf = mejor then (acc.1 ++ [(fila : Int)], some conf)
        else acc)
    (([] : List Int), (none : Option Nat))).1

/-- The inner `for _ in range(max_pasos)` loop of `resolver_probabilista`:
each iteration recomputes the conflicted columns, returns the current
placement if none is conflicted, and otherwise moves a random conflicted
column to a random minimum-conflict row. -/
def NReinas.pasos (n : Nat) : Nat → List Int → Rng → Option (List Int) × Rng
  | 0, _, g => (none, g)
  | k + 1, solucion, g =>
    let conflicted := NReinas.colsConflicto n solucion
    if conflicted.isEmpty then (some solucion, g)
    else
      let p1 := rngChoiceN conflicted g
      let p2 := rngChoiceZ (NReinas.mejorFilas n solucion p1.1) p1.2
      NReinas.pasos n k (solucion.set p1.1 p2.1) p2.2

/-- The outer `for _ in range(reinicios)` loop of `resolver_probabilista`:
each restart draws a fresh random placement and runs the inner loop; a
solution returned inside short-circuits all remaining restarts. -/
def NReinas.bucleReinicios (n : Nat) (maxPasos : Nat) :
    Nat → Rng → Option (List Int) × Rng
  | 0, g => (none, g)
  | k + 1, g =>
    let ini := randFilas n n g
    match NReinas.pasos n maxPasos ini.1 ini.2 with
    | (some sol, g2) => (some sol, g2)
    | (none, g2) => NReinas.bucleReinicios n maxPasos k g2

/-- `resolver_probabilista(max_pasos, reinicios)`: min-conflicts search.
`range` of a non-positive Python int is empty, hence the `Int.toNat`
conversions.  Returns the found solution (or `none`) together with the
final generator state. -/
def NReinas.resolver_probabilista (s : NReinas) (max_pasos reinicios : Int)
    (g : Rng) : Option (List Int) × Rng :=
  NReinas.bucleReinicios s.n max_pasos.toNat reinicios.toNat g

/-- `__init__(n, seed)`: rejects `n < 1` with `ValueError("n debe ser >= 1")`
before any field is set; on success builds the solver with an empty
solution list and, if a seed is supplied, reseeds the shared generator. -/
def NReinas.init (n : Int) (seed : Option Nat) (g : Rng) :
    Except String NReinas × Rng :=
  if n < 1 then (Except.error "n debe ser >= 1", g)
  else
    (Except.ok { n := n.toNat, soluciones := [] },
     match seed with
     | some s => rngSeed s
     | none => g)

/-- A full seeded run: construct with `(n, seed)` from global generator
state `g0`, then call `resolver_probabilista`; the construction error is
propagated, and only the returned placement (the observable result) is
kept. -/
def NReinas.runSembrado (n : Int) (seed : Nat) (max_pasos reinicios : Int)
    (g0 : Rng) : Except String (Option (List Int)) :=
  match NReinas.init n (some seed) g0 with
  | (Except.error e, _) => Except.error e
  | (Except.ok s, g1) => Except.ok (NReinas.resolver_probabilista s max_pasos reinicios g1).1

/-- Characterization of `es_valida` as a bounded universal statement over
the previously assigned columns. -/
theorem es_valida_iff (solucion : List Int) (fila : Int) (columna : Nat) :
    NReinas.es_valida solucion fila columna = true ↔
      ∀ col, col < columna →
        solucion.getD col 0 ≠ fila ∧
        (solucion.getD col 0 - fila).natAbs ≠ ((col : Int) - (columna : Int)).natAbs := by
  simp only [NReinas.es_valida, List.all_eq_true, List.mem_range,
    Bool.not_eq_true', Bool.or_eq_false_iff, beq_eq_false_iff_ne, ne_eq]

/-- Entries below a common `take` bound agree. -/
theorem getD_eq_of_take_eq (s t : List Int) (c i : Nat)
    (h : s.take c = t.take c) (hi : i < c) : s.getD i 0 = t.getD i 0 := by
  have hs : s[i]? = (s.take c)[i]? := (List.getElem?_take_of_lt hi).symm
  have ht : t[i]? = (t.take c)[i]? := (List.getElem?_take_of_lt hi).symm
  simp only [List.getD_eq_getElem?_getD, hs, ht, h]

theorem natAbs_sub_comm (a b : Int) : (a - b).natAbs = (b - a).natAbs := by
  rw [← Int.natAbs_neg, neg_sub]

/-- C4: `es_valida(placement, row, column)` returns true iff no previously
assigned column `col < columna` shares the row or a diagonal with
`(fila, columna)`; and it never inspects entries at columns `≥ columna`
(it depends only on the first `columna` entries of the placement). -/
theorem es_valida_caracterizacion (s t : List Int) (fila : Int) (columna : Nat) :
    (NReinas.es_valida s fila columna = true ↔
      ∀ col, col < columna →
        s.getD col 0 ≠ fila ∧
        (s.getD col 0 - fila).natAbs ≠ ((col : Int) - (columna : Int)).natAbs) ∧
    (s.take columna = t.take columna →
      NReinas.es_valida s fila columna = NReinas.es_valida t fila columna) := by
  refine ⟨es_valida_iff s fila columna, fun h => ?_⟩
  rw [Bool.eq_iff_iff, es_valida_iff, es_valida_iff]
  constructor
  · intro hv col hcol
    rw [← getD_eq_of_take_eq s t columna col h hcol]
    exact hv col hcol
  · intro hv col hcol
    rw [getD_eq_of_take_eq s t columna col h hcol]
    exact hv col hcol

/-- Closed instance of `es_valida_caracterizacion`: at column 1 the entry
at index 1 is never inspected, so `[0, 5]` and `[0, 7]` agree. -/
theorem es_valida_caracterizacion_testigo :
    NReinas.es_valida [0, 5] 2 1 = NReinas.es_valida [0, 7] 2 1 :=
  (es_valida_caracterizacion [0, 5] [0, 7] 2 1).2 (by decide)

/-- The property from the spec sentence for `conflicts_at`: column `c` is
distinct from the queried column, its entry is not the sentinel, and it
attacks `(columna, fila)` by row or diagonal. -/
def conflictoCol (solucion : List Int) (columna : Nat) (fila : Int) (c : Nat) : Bool :=
  decide (c ≠ columna ∧ solucion.getD c 0 ≠ -1 ∧
    (solucion.getD c 0 = fila ∨
      (solucion.getD c 0 - fila).natAbs = ((c : Int) - (columna : Int)).natAbs))

theorem conflictoCol_iff (solucion : List Int) (columna : Nat) (fila : Int) (c : Nat) :
    conflictoCol solucion columna fila c = true ↔
      (c ≠ columna ∧ solucion.getD c 0 ≠ -1 ∧
        (solucion.getD c 0 = fila ∨
          (solucion.getD c 0 - fila).natAbs = ((c : Int) - (columna : Int)).natAbs)) := by
  unfold conflictoCol
  exact decide_eq_true_iff

/-- The conflict-counting loop body of `conflictos_en`, as a single test:
folding it counts exactly the columns passing the combined predicate. -/
theorem conflictos_en_foldl (columna : Nat) (solucion : List Int) (fila : Int) :
    ∀ (l : List Nat) (a : Nat),
      (l.foldl
        (fun conflictos c =>
          if c = columna then conflictos
          else
            let f := solucion.getD c 0
            if f = -1 then conflictos
            else if f = fila ∨ (f - fila).natAbs = ((c : Int) - (columna : Int)).natAbs
              then conflictos + 1
            else conflictos)
        a) =
      a + (l.filter (conflictoCol solucion columna fila)).length := by
  intro l
  induction l with
  | nil => intro a; simp
  | cons c l ih =>
    intro a
    by_cases h1 : c = columna
    · rw [List.foldl_cons,
        List.filter_cons_of_neg (fun hd => ((conflictoCol_iff _ _ _ c).mp hd).1 h1)]
      simp only [if_pos h1, ih]
    · by_cases h2 : solucion.getD c 0 = -1
      · rw [List.foldl_cons,
          List.filter_cons_of_neg (fun hd => ((conflictoCol_iff _ _ _ c).mp hd).2.1 h2)]
        simp only [if_neg h1, h2, if_pos rfl, ih, if_true]
      · by_cases h3 : solucion.getD c 0 = fila ∨
          (solucion.getD c 0 - fila).natAbs = ((c : Int) - (columna : Int)).natAbs
        · rw [List.foldl_cons,
            List.filter_cons_of_pos ((conflictoCol_iff _ _ _ c).mpr ⟨h1, h2, h3⟩)]
          simp only [if_neg h1, if_neg h2, if_pos h3, ih, List.length_cons]
          omega
        · rw [List.foldl_cons,
            List.filter_cons_of_neg (fun hd => h3 ((conflictoCol_iff _ _ _ c).mp hd).2.2)]
          simp only [if_neg h1, if_neg h2, if_neg h3, ih]

/-- C5: `conflictos_en(solucion, columna, fila)` equals the number of
columns `c ≠ columna` below `n` whose entry is not the sentinel `-1` and
conflicts with `(columna, fila)` by row or diagonal. -/
theorem conflictos_en_cuenta (n : Nat) (solucion : List Int) (columna : Nat) (fila : Int) :
    NReinas.conflictos_en n solucion columna fila =
      ((List.range n).filter (conflictoCol solucion columna fila)).length := by
  unfold NReinas.conflictos_en
  rw [conflictos_en_foldl]
  omega

/-- The invariant of the backtracking search: the first `c` columns are
assigned rows in `0..n-1` and are pairwise non-attacking. -/
def validaHasta (n c : Nat) (s : List Int) : Prop :=
  ∀ i, i < c → (0 ≤ s.getD i 0 ∧ s.getD i 0 < (n : Int)) ∧
    ∀ j, j < i → s.getD j 0 ≠ s.getD i 0 ∧
      (s.getD j 0 - s.getD i 0).natAbs ≠ ((j : Int) - (i : Int)).natAbs

theorem getD_set_mismo (l : List Int) (i : Nat) (v : Int) (h : i < l.length) :
    (l.set i v).getD i 0 = v := by
  simp [List.getD_eq_getElem?_getD, List.getElem?_set_self h]

theorem getD_set_otro (l : List Int) (i j : Nat) (v : Int) (h : i ≠ j) :
    (l.set i v).getD j 0 = l.getD j 0 := by
  simp [List.getD_eq_getElem?_getD, List.getElem?_set_ne h]

/-- Assigning a row accepted by `es_valida` extends the invariant by one
column. -/
theorem validaHasta_extiende (n columna : Nat) (solucion : List Int) (fila : Nat)
    (hl : solucion.length = n) (hcol : columna < n) (hfila : fila < n)
    (hv : validaHasta n columna solucion)
    (hval : NReinas.es_valida solucion (fila : Int) columna = true) :
    validaHasta n (columna + 1) (solucion.set columna (fila : Int)) := by
  intro i hi
  rw [es_valida_iff] at hval
  by_cases hic : i = columna
  · subst hic
    have hset : (solucion.set i (fila : Int)).getD i 0 = (fila : Int) :=
      getD_set_mismo _ _ _ (by omega)
    refine ⟨?_, fun j hj => ?_⟩
    · rw [hset]
      omega
    · have hj' : (solucion.set i (fila : Int)).getD j 0 = solucion.getD j 0 :=
        getD_set_otro _ _ _ _ (by omega)
      rw [hset, hj']
      exact hval j hj
  · have hi' : i < columna := by omega
    have hgi : (solucion.set columna (fila : Int)).getD i 0 = solucion.getD i 0 :=
      getD_set_otro _ _ _ _ (by omega)
    refine ⟨?_, fun j hj => ?_⟩
    · rw [hgi]
      exact (hv i hi').1
    · have hgj : (solucion.set columna (fila : Int)).getD j 0 = solucion.getD j 0 :=
        getD_set_otro _ _ _ _ (by omega)
    
      rw [hgi, hgj]
      exact (hv i hi').2 j hj

/-- Every placement produced by the backtracking recursion from a state
satisfying the invariant is complete and satisfies the invariant at `n`. -/
theorem backtrackGas_valida (n : Nat) :
    ∀ (gas columna : Nat) (solucion : List Int),
      columna + gas = n → solucion.length = n → validaHasta n columna solucion →
      ∀ sol ∈ NReinas.backtrackGas n gas columna solucion,
        sol.length = n ∧ validaHasta n n sol := by
  intro gas
  induction gas with
  | zero =>
    intro columna solucion hcg hl hv sol hsol
    have hc : columna = n := by omega
    subst hc
    simp [NReinas.backtrackGas] at hsol
    subst hsol
    exact ⟨hl, hv⟩
  | succ gas ih =>
    intro columna solucion hcg hl hv sol hsol
    have hcn : columna ≠ n := by omega
    simp only [NReinas.backtrackGas, if_neg hcn, List.mem_flatMap, List.mem_range] at hsol
    obtain ⟨fila, hfila, hmem⟩ := hsol
    by_cases hval : NReinas.es_valida solucion (fila : Int) columna = true
    · rw [if_pos hval] at hmem
      exact ih (columna + 1) (solucion.set columna (fila : Int)) (by omega)
        (by rw [List.length_set]; exact hl)
        (validaHasta_extiende n columna solucion fila hl (by omega) hfila hv hval)
        sol hmem
    · rw [if_neg hval] at hmem
      simp at hmem

/-- C2: after `resolver()`, every stored placement is fully assigned with
rows in `0..n-1` (no `-1` sentinel remains) and no two distinct columns
share a row or a diagonal. -/
theorem resolver_soluciones_validas (s : NReinas) (h : 1 ≤ s.n) (sol : List Int)
    (hsol : sol ∈ (s.resolver).soluciones) :
    sol.length = s.n ∧
    (∀ i, i < s.n → 0 ≤ sol.getD i 0 ∧ sol.getD i 0 < (s.n : Int)) ∧
    (∀ i j, i < s.n → j < s.n → i ≠ j →
      sol.getD i 0 ≠ sol.getD j 0 ∧
      (sol.getD i 0 - sol.getD j 0).natAbs ≠ ((i : Int) - (j : Int)).natAbs) := by
  have hmem : sol ∈ NReinas.backtrackGas s.n (s.n - 0) 0 (List.replicate s.n (-1 : Int)) := by
    simpa [NReinas.resolver, NReinas.limpiar, NReinas.backtrack] using hsol
  have hv : validaHasta s.n 0 (List.replicate s.n (-1 : Int)) := by
    intro i hi
    omega
  obtain ⟨hlen, hval⟩ :=
    backtrackGas_valida s.n (s.n - 0) 0 _ (by omega) (by simp) hv sol hmem
  refine ⟨hlen, fun i hi => (hval i hi).1, fun i j hi hj hij => ?_⟩
  rcases Nat.lt_or_ge i j with hlt | hge
  · exact (hval j hj).2 i hlt
  · have hlt : j < i := by omega
    have h2 := (hval i hi).2 j hlt
    exact ⟨fun he => h2.1 he.symm,
      fun he => h2.2 ((natAbs_sub_comm _ _).trans (he.trans (natAbs_sub_comm _ _)))⟩

/-- Closed instance of `resolver_soluciones_validas` at `n = 4` and the
first enumerated solution `[1, 3, 0, 2]`. -/
theorem resolver_soluciones_validas_testigo :
    ([1, 3, 0, 2] : List Int).length = (NReinas.nuevo 4).n ∧
    (∀ i, i < (NReinas.nuevo 4).n →
      0 ≤ ([1, 3, 0, 2] : List Int).getD i 0 ∧
      ([1, 3, 0, 2] : List Int).getD i 0 < ((NReinas.nuevo 4).n : Int)) ∧
    (∀ i j, i < (NReinas.nuevo 4).n → j < (NReinas.nuevo 4).n → i ≠ j →
      ([1, 3, 0, 2] : List Int).getD i 0 ≠ ([1, 3, 0, 2] : List Int).getD j 0 ∧
      (([1, 3, 0, 2] : List Int).getD i 0 -
        ([1, 3, 0, 2] : List Int).getD j 0).natAbs ≠ ((i : Int) - (j : Int)).natAbs) :=
  resolver_soluciones_validas (NReinas.nuevo 4) (by decide) [1, 3, 0, 2] (by decide)

/-- Two lists agreeing strictly below position `c` and strictly increasing
at position `c` are lexicographically ordered. -/
theorem lex_de_acuerdo :
    ∀ (c : Nat) (l1 l2 : List Int), c < l1.length → c < l2.length →
      (∀ i, i < c → l1.getD i 0 = l2.getD i 0) → l1.getD c 0 < l2.getD c 0 →
      List.Lex (· < ·) l1 l2 := by
  intro c
  induction c with
  | zero =>
    intro l1 l2 h1 h2 _ hlt
    cases l1 with
    | nil => simp at h1
    | cons a t1 =>
      cases l2 with
      | nil => simp at h2
      | cons b t2 => exact List.Lex.rel (by simpa using hlt)
  | succ c ih =>
    intro l1 l2 h1 h2 hagree hlt
    cases l1 with
    | nil => simp at h1
    | cons a t1 =>
      cases l2 with
      | nil => simp at h2
      | cons b t2 =>
        have hab : a = b := by simpa using hagree 0 (Nat.succ_pos c)
        subst hab
        exact List.Lex.cons (ih t1 t2 (by simpa using h1) (by simpa using h2)
          (fun i hi => by simpa using hagree (i + 1) (by omega))
          (by simpa using hlt))

/-- Pairwise property of a `flatMap`, from pairwise properties within each
block and across blocks. -/
theorem pairwise_flatMap_de {α β : Type} (R : α → α → Prop) (f : β → List α) :
    ∀ (l : List β),
      (∀ b ∈ l, (f b).Pairwise R) →
      l.Pairwise (fun b1 b2 => ∀ x ∈ f b1, ∀ y ∈ f b2, R x y) →
      (l.flatMap f).Pairwise R := by
  intro l
  induction l with
  | nil =>
    intro _ _
    simp
  | cons b l ih =>
    intro hin hpw
    rw [List.pairwise_cons] at hpw
    rw [List.flatMap_cons, List.pairwise_append]
    refine ⟨hin b (List.mem_cons_self b l),
      ih (fun b' hb' => hin b' (List.mem_cons_of_mem b hb')) hpw.2, ?_⟩
    intro x hx y hy
    rw [List.mem_flatMap] at hy
    obtain ⟨b', hb', hy⟩ := hy
    exact hpw.1 b' hb' x hx y hy

/-- The backtracking recursion never changes entries strictly below the
current column, and preserves the placement's length. -/
theorem backtrackGas_preserva (n : Nat) :
    ∀ (gas columna : Nat) (solucion : List Int),
      ∀ sol ∈ NReinas.backtrackGas n gas columna solucion,
        sol.length = solucion.length ∧
        ∀ i, i < columna → sol.getD i 0 = solucion.getD i 0 := by
  intro gas
  induction gas with
  | zero =>
    intro columna solucion sol hsol
    simp only [NReinas.backtrackGas] at hsol
    split at hsol
    · simp at hsol
      subst hsol
      exact ⟨rfl, fun i _ => rfl⟩
    · simp at hsol
  | succ gas ih =>
    intro columna solucion sol hsol
    simp only [NReinas.backtrackGas] at hsol
    split at hsol
    · simp at hsol
      subst hsol
      exact ⟨rfl, fun i _ => rfl⟩
    · simp only [List.mem_flatMap, List.mem_range] at hsol
      obtain ⟨fila, hfila, hmem⟩ := hsol
      by_cases hval : NReinas.es_valida solucion (fila : Int) columna = true
      · rw [if_pos hval] at hmem
        obtain ⟨hlen, hagree⟩ := ih (columna + 1) (solucion.set columna (fila : Int)) sol hmem
        refine ⟨by rw [hlen, List.length_set], fun i hi => ?_⟩
        rw [hagree i (by omega), getD_set_otro _ _ _ _ (by omega)]
      · rw [if_neg hval] at hmem
        simp at hmem

/-- The solutions emitted by the backtracking recursion appear in strictly
increasing lexicographic order. -/
theorem backtrackGas_ordenado (n : Nat) :
    ∀ (gas columna : Nat) (solucion : List Int),
      columna + gas = n → solucion.length = n →
      List.Pairwise (List.Lex (· < ·)) (NReinas.backtrackGas n gas columna solucion) := by
  intro gas
  induction gas with
  | zero =>
    intro columna solucion _ _
    simp only [NReinas.backtrackGas]
    split
    · exact List.pairwise_singleton _ _
    · exact List.Pairwise.nil
  | succ gas ih =>
    intro columna solucion hcg hl
    have hcn : columna ≠ n := by omega
    simp only [NReinas.backtrackGas, if_neg hcn]
    apply pairwise_flatMap_de
    · intro fila _
      split
      · exact ih (columna + 1) _ (by omega) (by rw [List.length_set]; exact hl)
      · exact List.Pairwise.nil
    · apply List.Pairwise.imp ?_ (List.pairwise_lt_range n)
      intro fila1 fila2 hlt x hx y hy
      by_cases hv1 : NReinas.es_valida solucion (fila1 : Int) columna = true
      · rw [if_pos hv1] at hx
        by_cases hv2 : NReinas.es_valida solucion (fila2 : Int) columna = true
        · rw [if_pos hv2] at hy
          obtain ⟨hxl, hxa⟩ := backtrackGas_preserva n gas (columna + 1) _ x hx
          obtain ⟨hyl, hya⟩ := backtrackGas_preserva n gas (columna + 1) _ y hy
          have hxc : x.getD columna 0 = (fila1 : Int) := by
            rw [hxa columna (Nat.lt_succ_self columna),
              getD_set_mismo _ _ _ (by omega)]
          have hyc : y.getD columna 0 = (fila2 : Int) := by
            rw [hya columna (Nat.lt_succ_self columna),
              getD_set_mismo _ _ _ (by omega)]
          apply lex_de_acuerdo columna x y
          · rw [hxl, List.length_set, hl]
            omega
          · rw [hyl, List.length_set, hl]
            omega
          · intro i hi
            rw [hxa i (by omega), hya i (by omega),
              getD_set_otro _ _ _ _ (by omega), getD_set_otro _ _ _ _ (by omega)]
          · rw [hxc, hyc]
            exact_mod_cast hlt
        · rw [if_neg hv2] at hy
          simp at hy
      · rw [if_neg hv1] at hx
        simp at hx

/-- C6: `resolver()` lists the solutions in the order of the row-ascending,
column-ascending depth-first traversal, which is strictly ascending
lexicographic order of the placement vectors. -/
theorem resolver_orden_lexicografico (s : NReinas) (h : 1 ≤ s.n) :
    List.Pairwise (List.Lex (· < ·)) ((s.resolver).soluciones) := by
  simp only [NReinas.resolver, NReinas.limpiar, NReinas.backtrack, List.nil_append]
  exact backtrackGas_ordenado s.n (s.n - 0) 0 _ (by omega) (by simp)

/-- Closed instance of `resolver_orden_lexicografico` at `n = 4`. -/
theorem resolver_orden_lexicografico_testigo :
    List.Pairwise (List.Lex (· < ·)) (((NReinas.nuevo 4).resolver).soluciones) :=
  resolver_orden_lexicografico (NReinas.nuevo 4) (by decide)

/-- The n = 1 solution list, evaluated. -/
theorem cuenta_n1 : ((NReinas.nuevo 1).resolver).soluciones = [[0]] := by decide

theorem cuenta_n2 : ((NReinas.nuevo 2).resolver).cantidad_soluciones = 0 := by decide

theorem cuenta_n3 : ((NReinas.nuevo 3).resolver).cantidad_soluciones = 0 := by decide

theorem cuenta_n4 : ((NReinas.nuevo 4).resolver).cantidad_soluciones = 2 := by decide

theorem cuenta_n5 : ((NReinas.nuevo 5).resolver).cantidad_soluciones = 10 := by decide

theorem cuenta_n6 : ((NReinas.nuevo 6).resolver).cantidad_soluciones = 4 := by decide

set_option maxHeartbeats 4000000 in
theorem cuenta_n7 : ((NReinas.nuevo 7).resolver).cantidad_soluciones = 40 := by decide

set_option maxHeartbeats 12000000 in
theorem cuenta_n8 : ((NReinas.nuevo 8).resolver).cantidad_soluciones = 92 := by decide

/-- C1: `resolver()` stores exactly the known N-Queens solution counts for
`n = 1..8`, and for `n = 1` the single stored solution is `[0]`. -/
theorem resolver_cuentas_conocidas :
    ((NReinas.nuevo 1).resolver).cantidad_soluciones = 1 ∧
    ((NReinas.nuevo 2).resolver).cantidad_soluciones = 0 ∧
    ((NReinas.nuevo 3).resolver).cantidad_soluciones = 0 ∧
    ((NReinas.nuevo 4).resolver).cantidad_soluciones = 2 ∧
    ((NReinas.nuevo 5).resolver).cantidad_soluciones = 10 ∧
    ((NReinas.nuevo 6).resolver).cantidad_soluciones = 4 ∧
    ((NReinas.nuevo 7).resolver).cantidad_soluciones = 40 ∧
    ((NReinas.nuevo 8).resolver).cantidad_soluciones = 92 ∧
    ((NReinas.nuevo 1).resolver).soluciones = [[0]] :=
  ⟨by simp [NReinas.cantidad_soluciones, cuenta_n1], cuenta_n2, cuenta_n3, cuenta_n4,
   cuenta_n5, cuenta_n6, cuenta_n7, cuenta_n8, cuenta_n1⟩

/-- C7: `resolver()` is idempotent, because it clears the stored solution
set before searching: a second run reproduces the same state (same `n`,
same solutions, same order). -/
theorem resolver_idempotente (s : NReinas) (h : 1 ≤ s.n) :
    (s.resolver).resolver = s.resolver := rfl

/-- Closed instance of `resolver_idempotente` at `n = 1`. -/
theorem resolver_idempotente_testigo :
    ((NReinas.nuevo 1).resolver).resolver = (NReinas.nuevo 1).resolver :=
  resolver_idempotente (NReinas.nuevo 1) (by decide)

/-- C8: construction fails with the `ValueError` exactly when `n < 1`, with
or without a seed; on success the solver is returned fully built, with
board size `n` and an empty solution list. -/
theorem init_error_sii (n : Int) (seed : Option Nat) (g : Rng) :
    ((NReinas.init n seed g).1 = Except.error "n debe ser >= 1" ↔ n < 1) ∧
    (∀ s : NReinas, (NReinas.init n seed g).1 = Except.ok s →
      1 ≤ n ∧ s = { n := n.toNat, soluciones := [] }) := by
  by_cases h : n < 1
  · simp only [NReinas.init, if_pos h]
    constructor
    · simp [h]
    · intro s hs
      simp at hs
  · simp only [NReinas.init, if_neg h]
    constructor
    · simp [h]
    · intro s hs
      simp at hs
      exact ⟨by omega, hs.symm⟩

/-- Closed instance of `init_error_sii`: `n = 0` fails with the error. -/
theorem init_error_sii_testigo :
    (NReinas.init 0 none 0).1 = Except.error "n debe ser >= 1" :=
  (init_error_sii 0 none 0).1.mpr (by decide)

/-- C9: with a fixed seed and fixed `(max_pasos, reinicios)`, a full seeded
run returns the same result whatever the prior state of the shared
generator: seeding at construction erases it. -/
theorem probabilista_determinista_semilla (n : Int) (seed : Nat)
    (max_pasos reinicios : Int) (g0 g0' : Rng) :
    NReinas.runSembrado n seed max_pasos reinicios g0 =
    NReinas.runSembrado n seed max_pasos reinicios g0' := by
  unfold NReinas.runSembrado NReinas.init
  by_cases h : n < 1
  · rw [if_pos h, if_pos h]
  · rw [if_neg h, if_neg h]

/-- C10: any `reinicios ≤ 0` makes `resolver_probabilista` return `none`
immediately (Python's `range` of a non-positive bound is empty), even when
a solution exists; the budgets are not validated. -/
theorem probabilista_sin_reinicios (s : NReinas) (max_pasos reinicios : Int)
    (g : Rng) (h : reinicios ≤ 0) :
    (s.resolver_probabilista max_pasos reinicios g).1 = none := by
  unfold NReinas.resolver_probabilista
  rw [Int.toNat_of_nonpos h]
  rfl

/-- Closed instance of `probabilista_sin_reinicios` at `n = 1`, a size for
which a solution exists. -/
theorem probabilista_sin_reinicios_testigo :
    (0 : Int) ≤ 0 ∧ ((NReinas.nuevo 1).resolver_probabilista 5 0 0).1 = none :=
  ⟨by decide, probabilista_sin_reinicios (NReinas.nuevo 1) 5 0 0 (by decide)⟩

/-- Invariant of the min-conflicts search: the placement has length `n`
and every entry is a row in `0..n-1`. -/
def enRango (n : Nat) (sol : List Int) : Prop :=
  sol.length = n ∧ ∀ i, i < n → 0 ≤ sol.getD i 0 ∧ sol.getD i 0 < (n : Int)

/-- The random initial placement of a restart is in range. -/
theorem randFilas_enRango (n : Nat) (hn : 1 ≤ n) :
    ∀ (k : Nat) (g : Rng),
      (randFilas n k g).1.length = k ∧
      ∀ i, i < k → 0 ≤ (randFilas n k g).1.getD i 0 ∧
        (randFilas n k g).1.getD i 0 < (n : Int) := by
  intro k
  induction k with
  | zero =>
    intro g
    exact ⟨rfl, fun i hi => absurd hi (by omega)⟩
  | succ k ih =>
    intro g
    simp only [randFilas]
    refine ⟨by simp [(ih _).1], fun i hi => ?_⟩
    cases i with
    | zero =>
      simp only [List.getD_cons_zero]
      have hlt : (randrange n g).1 < n := Nat.mod_lt _ (by omega)
      constructor
      · exact Int.natCast_nonneg _
      · exact_mod_cast hlt
    | succ i =>
      simp only [List.getD_cons_succ]
      exact (ih _).2 i (by omega)

/-- Updating an in-range placement with an in-range row keeps it in
range. -/
theorem enRango_set (n : Nat) (sol : List Int) (col : Nat) (v : Int)
    (h : enRango n sol) (hv : 0 ≤ v ∧ v < (n : Int)) :
    enRango n (sol.set col v) := by
  refine ⟨by rw [List.length_set]; exact h.1, fun i hi => ?_⟩
  by_cases hic : i = col
  · subst hic
    have hlen : i < sol.length := by
      rw [h.1]
      exact hi
    rw [getD_set_mismo _ _ _ hlen]
    exact hv
  · rw [getD_set_otro _ _ _ _ (by omega)]
    exact h.2 i hi

/-- Elements accumulated by a fold are either initial or contributed by
some list element. -/
theorem foldl_acumula {β γ : Type} (B : List γ × Option Nat → β → List γ × Option Nat)
    (P : β → γ → Prop)
    (hB : ∀ acc f, ∀ x ∈ (B acc f).1, x ∈ acc.1 ∨ P f x) :
    ∀ (l : List β) (acc : List γ × Option Nat),
      ∀ x ∈ (l.foldl B acc).1, x ∈ acc.1 ∨ ∃ f ∈ l, P f x := by
  intro l
  induction l with
  | nil =>
    intro acc x hx
    exact Or.inl hx
  | cons f l ih =>
    intro acc x hx
    rw [List.foldl_cons] at hx
    rcases ih (B acc f) x hx with hacc | ⟨f', hf', hp⟩
    · rcases hB acc f x hacc with h | h
      · exact Or.inl h
      · exact Or.inr ⟨f, List.mem_cons_self f l, h⟩
    · exact Or.inr ⟨f', List.mem_cons_of_mem f hf', hp⟩

/-- Every element of `mejorFilas` is the cast of some row below `n`. -/
theorem mejorFilas_sub (n : Nat) (solucion : List Int) (col : Nat) :
    ∀ x ∈ NReinas.mejorFilas n solucion col, ∃ f : Nat, f < n ∧ x = (f : Int) := by
  intro x hx
  unfold NReinas.mejorFilas at hx
  have h := foldl_acumula
    (fun (acc : List Int × Option Nat) (fila : Nat) =>
      let conf := NReinas.conflictos_en n solucion col (fila : Int)
      match acc.2 with
      | none => ([(fila : Int)], some conf)
      | some mejor =>
        if conf < mejor then ([(fila : Int)], some conf)
        else if conf = mejor then (acc.1 ++ [(fila : Int)], some conf)
        else acc)
    (fun (f : Nat) (x : Int) => x = (f : Int)) ?_ (List.range n)
    (([] : List Int), (none : Option Nat)) x hx
  · rcases h with h | ⟨f, hf, he⟩
    · simp at h
    · exact ⟨f, List.mem_range.mp hf, he⟩
  · intro acc f y hy
    rcases acc with ⟨l1, o⟩
    cases o with
    | none =>
      simp at hy
      exact Or.inr hy
    | some mejor =>
      by_cases h1 : NReinas.conflictos_en n solucion col (f : Int) < mejor
      · simp [h1] at hy
        exact Or.inr hy
      · by_cases h2 : NReinas.conflictos_en n solucion col (f : Int) = mejor
        · simp [h1, h2] at hy
          rcases hy with h | h
          · exact Or.inl h
          · exact Or.inr h
        · simp [h1, h2] at hy
          exact Or.inl hy

/-- Any `getD` read of `mejorFilas` yields a row in `0..n-1` (the default
`0` is itself in range for `n ≥ 1`). -/
theorem mejorFilas_rango (n : Nat) (hn : 1 ≤ n) (solucion : List Int) (col : Nat)
    (i : Nat) :
    0 ≤ (NReinas.mejorFilas n solucion col).getD i 0 ∧
    (NReinas.mejorFilas n solucion col).getD i 0 < (n : Int) := by
  by_cases hi : i < (NReinas.mejorFilas n solucion col).length
  · have hmem : (NReinas.mejorFilas n solucion col).getD i 0 ∈
        NReinas.mejorFilas n solucion col := by
      rw [List.getD_eq_get _ _ hi]
      exact List.get_mem _ i hi
    obtain ⟨f, hf, he⟩ := mejorFilas_sub n solucion col _ hmem
    rw [he]
    constructor
    · exact Int.natCast_nonneg _
    · exact_mod_cast hf
  · rw [List.getD_eq_default _ _ (by omega)]
    constructor
    · omega
    · omega

/-- The row chosen by `random.choice` from `mejorFilas` is in range. -/
theorem rngChoiceZ_mejorFilas_rango (n : Nat) (hn : 1 ≤ n) (solucion : List Int)
    (col : Nat) (g : Rng) :
    0 ≤ (rngChoiceZ (NReinas.mejorFilas n solucion col) g).1 ∧
    (rngChoiceZ (NReinas.mejorFilas n solucion col) g).1 < (n : Int) :=
  mejorFilas_rango n hn solucion col _

/-- The conflicted-columns list is empty iff every column has zero
conflicts at its current row. -/
theorem colsConflicto_vacia (n : Nat) (sol : List Int) :
    (NReinas.colsConflicto n sol).isEmpty = true ↔
      ∀ c, c < n → NReinas.conflictos_en n sol c (sol.getD c 0) = 0 := by
  rw [List.isEmpty_iff]
  unfold NReinas.colsConflicto
  rw [List.filter_eq_nil_iff]
  constructor
  · intro hh c hc
    have hn := hh c (List.mem_range.mpr hc)
    simp only [decide_eq_true_eq, Nat.not_lt, Nat.le_zero] at hn
    exact hn
  · intro hh c hc
    rw [List.mem_range] at hc
    simp only [decide_eq_true_eq, Nat.not_lt, Nat.le_zero]
    exact hh c hc

/-- If the inner min-conflicts loop returns a placement, that placement is
in range and conflict-free. -/
theorem pasos_valida (n : Nat) (hn : 1 ≤ n) :
    ∀ (k : Nat) (sol : List Int) (g : Rng) (out : List Int),
      enRango n sol → (NReinas.pasos n k sol g).1 = some out →
      enRango n out ∧ (NReinas.colsConflicto n out).isEmpty = true := by
  intro k
  induction k with
  | zero =>
    intro sol g out _ hout
    simp [NReinas.pasos] at hout
  | succ k ih =>
    intro sol g out hr hout
    simp only [NReinas.pasos] at hout
    by_cases hempty : (NReinas.colsConflicto n sol).isEmpty = true
    · rw [if_pos hempty] at hout
      simp at hout
      subst hout
      exact ⟨hr, hempty⟩
    · rw [if_neg hempty] at hout
      exact ih _ _ out
        (enRango_set n sol _ _ hr (rngChoiceZ_mejorFilas_rango n hn sol _ _)) hout

/-- If any restart of the outer loop returns a placement, that placement
is in range and conflict-free. -/
theorem bucleReinicios_valida (n : Nat) (hn : 1 ≤ n) (maxPasos : Nat) :
    ∀ (k : Nat) (g : Rng) (out : List Int),
      (NReinas.bucleReinicios n maxPasos k g).1 = some out →
      enRango n out ∧ (NReinas.colsConflicto n out).isEmpty = true := by
  intro k
  induction k with
  | zero =>
    intro g out h
    simp [NReinas.bucleReinicios] at h
  | succ k ih =>
    intro g out h
    simp only [NReinas.bucleReinicios] at h
    rcases hp : NReinas.pasos n maxPasos (randFilas n n g).1 (randFilas n n g).2
      with ⟨o, g2⟩
    rw [hp] at h
    cases o with
    | some sol =>
      have hini : enRango n (randFilas n n g).1 :=
        ⟨(randFilas_enRango n hn n g).1, (randFilas_enRango n hn n g).2⟩
      have hp1 : (NReinas.pasos n maxPasos (randFilas n n g).1 (randFilas n n g).2).1 =
          some out := by
        rw [hp]
        exact h
      exact pasos_valida n hn maxPasos _ _ out hini hp1
    | none =>
      exact ih g2 out h

/-- C3: whenever `resolver_probabilista` returns a placement (rather than
the absence value `none`, the only other possibility), that placement has
length `n`, every entry is a row in `0..n-1`, and no two distinct columns
share a row or a diagonal. -/
theorem probabilista_solucion_valida (s : NReinas) (h : 1 ≤ s.n)
    (max_pasos reinicios : Int) (hmp : 1 ≤ max_pasos) (hr : 1 ≤ reinicios)
    (g : Rng) (sol : List Int)
    (hsol : (s.resolver_probabilista max_pasos reinicios g).1 = some sol) :
    sol.length = s.n ∧
    (∀ i, i < s.n → 0 ≤ sol.getD i 0 ∧ sol.getD i 0 < (s.n : Int)) ∧
    (∀ i j, i < s.n → j < s.n → i ≠ j →
      sol.getD i 0 ≠ sol.getD j 0 ∧
      (sol.getD i 0 - sol.getD j 0).natAbs ≠ ((i : Int) - (j : Int)).natAbs) := by
  unfold NReinas.resolver_probabilista at hsol
  obtain ⟨hrango, hvacia⟩ :=
    bucleReinicios_valida s.n h max_pasos.toNat reinicios.toNat g sol hsol
  rw [colsConflicto_vacia] at hvacia
  refine ⟨hrango.1, hrango.2, fun i j hi hj hij => ?_⟩
  have hci := hvacia i hi
  rw [conflictos_en_cuenta, List.length_eq_zero, List.filter_eq_nil_iff] at hci
  have hj' := hci j (List.mem_range.mpr hj)
  rw [conflictoCol_iff] at hj'
  push_neg at hj'
  have hjne : sol.getD j 0 ≠ -1 := by
    have := (hrango.2 j hj).1
    omega
  have hcon := hj' (fun he => hij he.symm) hjne
  push_neg at hcon
  exact ⟨fun he => hcon.1 he.symm,
    fun he => hcon.2 ((natAbs_sub_comm _ _).trans (he.trans (natAbs_sub_comm _ _)))⟩

/-- Closed instance of `probabilista_solucion_valida`: for `n = 1` with one
step and one restart the solver returns `some [0]`, which is valid. -/
theorem probabilista_solucion_valida_testigo :
    ([0] : List Int).length = (NReinas.nuevo 1).n ∧
    (∀ i, i < (NReinas.nuevo 1).n →
      0 ≤ ([0] : List Int).getD i 0 ∧
      ([0] : List Int).getD i 0 < ((NReinas.nuevo 1).n : Int)) ∧
    (∀ i j, i < (NReinas.nuevo 1).n → j < (NReinas.nuevo 1).n → i ≠ j →
      ([0] : List Int).getD i 0 ≠ ([0] : List Int).getD j 0 ∧
      (([0] : List Int).getD i 0 - ([0] : List Int).getD j 0).natAbs ≠
        ((i : Int) - (j : Int)).natAbs) :=
  probabilista_solucion_valida (NReinas.nuevo 1) (by decide) 1 1 (by decide)
    (by decide) 0 [0] (by decide)
